import Mathlib

/-!
Verification of the NIAP product-grid scraper.

The definitions below are a shallow embedding of the two scraper modules:
`scripts/run_niap.py` (grid scraper: header resolution, row extraction,
dedup keys, the pagination loop, and the CSV/JSONL writes) and
`cc_scraper/niap_scraper.py` with `cc_scraper/utils.py` (card scraper:
`FIELD_ALIASES`, `normalize_label`, `Record`).  DOM access is abstracted:
the header texts, the rendered rows after each Next click, the next-button
state and the parsed pager total are inputs (an `Env`), while all pure
computation on them is translated statement by statement.
-/

namespace NIAP

/-- Python `str.lower()` on one character (ASCII case mapping). -/
def lowerChar (c : Char) : Char :=
  if 65 ≤ c.toNat ∧ c.toNat ≤ 90 then Char.ofNat (c.toNat + 32) else c

/-- Python `str.lower()`. -/
def lowerStr (s : String) : String := ⟨s.data.map lowerChar⟩

/-- Drop leading and trailing whitespace from a character list. -/
def trimChars (cs : List Char) : List Char :=
  ((cs.dropWhile Char.isWhitespace).reverse.dropWhile Char.isWhitespace).reverse

/-- Python `str.strip()`. -/
def trimStr (s : String) : String := ⟨trimChars s.data⟩

/-- The maximal non-whitespace runs of a character list, in order:
Python `str.split()` with no separator argument. -/
def wsTokensAux : List Char → List Char → List (List Char)
  | acc, [] => if acc.isEmpty then [] else [acc.reverse]
  | acc, c :: cs =>
    if c.isWhitespace then
      if acc.isEmpty then wsTokensAux [] cs else acc.reverse :: wsTokensAux [] cs
    else wsTokensAux (c :: acc) cs

/-- Join character-list tokens with a single space: Python `" ".join(...)`. -/
def joinWithSpace : List (List Char) → List Char
  | [] => []
  | [t] => t
  | t :: ts => t ++ ' ' :: joinWithSpace ts

/-- Python `" ".join(sep for ...)` over strings, for the row-key join. -/
def joinSep (sep : String) : List String → String
  | [] => ""
  | [x] => x
  | x :: xs => x ++ sep ++ joinSep sep xs

/-- Python `" ".join((s or "").split()).strip()` from `norm` in
`scripts/run_niap.py`: collapse whitespace runs to one space and trim. -/
def norm (s : String) : String :=
  trimStr ⟨joinWithSpace (wsTokensAux [] s.data)⟩

/-- `REQUIRED_HEADERS` of `scripts/run_niap.py`. -/
def REQUIRED_HEADERS : List String :=
  ["VID", "Vendor", "Product", "CCTL", "Certification Date", "Status",
   "Conformance Claims", "Assurance Maintenance Date", "Maintenance Update", "Scheme"]

/-- `ALIASES` of `scripts/run_niap.py`: lowercase header text to canonical name. -/
def ALIASES : List (String × String) :=
  [("vid", "VID"), ("vendor", "Vendor"), ("product", "Product"), ("cctl", "CCTL"),
   ("certification date", "Certification Date"), ("status", "Status"),
   ("conformance claims", "Conformance Claims"),
   ("assurance maintenance date", "Assurance Maintenance Date"),
   ("maintenance update", "Maintenance Update"), ("scheme", "Scheme")]

/-- `to_canonical` of `scripts/run_niap.py`: `ALIASES.get(norm(header).lower())`. -/
def to_canonical (header : String) : Option String :=
  ALIASES.lookup (lowerStr (norm header))

/-- `_get_headers` of `scripts/run_niap.py`, over the header cells' texts:
index-to-canonical-name map, unmatched headers dropped. -/
def _get_headers (headerTexts : List String) : List (Nat × String) :=
  headerTexts.enum.filterMap (fun p => (to_canonical (norm p.2)).map (fun c => (p.1, c)))

/-- The `Row` dataclass of `scripts/run_niap.py`; every field defaults to `""`. -/
structure Row where
  VID : String := ""
  Vendor : String := ""
  Product : String := ""
  CCTL : String := ""
  Certification_Date : String := ""
  Status : String := ""
  Conformance_Claims : String := ""
  Assurance_Maintenance_Date : String := ""
  Maintenance_Update : String := ""
  Scheme : String := ""
  Product_URL : String := ""

/-- `Row.to_dict` of `scripts/run_niap.py`: snake_case keys, insertion order. -/
def Row.to_dict (r : Row) : List (String × String) :=
  [("vid", r.VID), ("vendor", r.Vendor), ("product", r.Product), ("cctl", r.CCTL),
   ("certification_date", r.Certification_Date), ("status", r.Status),
   ("conformance_claims", r.Conformance_Claims),
   ("assurance_maintenance_date", r.Assurance_Maintenance_Date),
   ("maintenance_update", r.Maintenance_Update), ("scheme", r.Scheme),
   ("product_url", r.Product_URL)]

/-- One rendered grid cell: its visible text, and `anchorHref = some h` when the
cell contains an `<a>` element whose `href` attribute is `h` (the attribute
itself may be absent, hence the inner `Option`). -/
structure Cell where
  text : String
  anchorHref : Option (Option String)

/-- Python `values[key] = val`: pointwise update of the field-value map. -/
def updateVal (v : String → String) (k val : String) : String → String :=
  fun x => if x = k then val else v x

/-- One iteration of the cell loop in `_extract_rows` (`scripts/run_niap.py`):
look the column index up in the header map, store the normalized cell text
under the canonical name (overwriting), and for a `Product` cell with an
anchor capture its `href or ""` as the product URL. -/
def cellStep (itn : Nat → Option String) (st : (String → String) × String)
    (p : Nat × Cell) : (String → String) × String :=
  let key := itn p.1
  let val := norm p.2.text
  let url := if key = some "Product" then
      match p.2.anchorHref with
      | some h => h.getD ""
      | none => st.2
    else st.2
  let values := match key with
    | some k => updateVal st.1 k val
    | none => st.1
  (values, url)

/-- The cell loop of `_extract_rows`, carrying the running column index. -/
def processCellsFrom (itn : Nat → Option String) :
    Nat → List Cell → (String → String) × String → (String → String) × String
  | _, [], st => st
  | i, c :: cs, st => processCellsFrom itn (i + 1) cs (cellStep itn st (i, c))

/-- First pass over one row's cells in `_extract_rows`: the field-value map
(`values`, defaulting to `""` as every later read is `values.get(k, "")`)
and the captured `product_url`. -/
def processCells (itn : Nat → Option String) (cells : List Cell) :
    (String → String) × String :=
  processCellsFrom itn 0 cells (fun _ => "", "")

/-- The dedup-key build of `_extract_rows`: normalized lowercase `Product`
text, else `"url::"` + lowercase URL, else `"row::"` + the joined row. -/
def dedupKey (values : String → String) (product_url : String) : String :=
  let key_norm := trimStr (lowerStr (values "Product"))
  if key_norm = "" then
    if product_url = "" then
      "row::" ++ lowerStr (norm (joinSep " | " (REQUIRED_HEADERS.map values)))
    else
      "url::" ++ lowerStr (trimStr product_url)
  else key_norm

/-- The `Row(...)` construction at the end of `_extract_rows`. -/
def rowOf (values : String → String) (product_url : String) : Row :=
  { VID := values "VID", Vendor := values "Vendor", Product := values "Product",
    CCTL := values "CCTL", Certification_Date := values "Certification Date",
    Status := values "Status", Conformance_Claims := values "Conformance Claims",
    Assurance_Maintenance_Date := values "Assurance Maintenance Date",
    Maintenance_Update := values "Maintenance Update", Scheme := values "Scheme",
    Product_URL := product_url }

/-- The mutable state of `_extract_rows`: the batch built so far and the
`seen_products` keys (a set, represented as a duplicate-free list). -/
structure ExtractState where
  batch : List Row
  seen : List String

/-- One iteration of the row loop of `_extract_rows`: skip a cell-less row,
skip a row whose dedup key is already seen, otherwise insert the key and
append the record. -/
def extractStep (itn : Nat → Option String) (st : ExtractState)
    (cells : List Cell) : ExtractState :=
  if cells.isEmpty then st
  else if dedupKey (processCells itn cells).1 (processCells itn cells).2 ∈ st.seen then st
  else ⟨st.batch ++ [rowOf (processCells itn cells).1 (processCells itn cells).2],
        st.seen ++ [dedupKey (processCells itn cells).1 (processCells itn cells).2]⟩

/-- `_extract_rows` of `scripts/run_niap.py`: returns the batch of new rows
and the grown `seen_products` set. -/
def extract_rows (itn : Nat → Option String) (dataRows : List (List Cell))
    (seen : List String) : List Row × List String :=
  let st := dataRows.foldl (extractStep itn) ⟨[], seen⟩
  (st.batch, st.seen)

/-- The page as the `run` function of `scripts/run_niap.py` observes it.
`gridFound` abstracts `_find_grid` (whether any grid selector matches),
`headerTexts` the header-cell texts read by `_get_headers`, `pages k` the
data rows rendered after `k` Next clicks (scrolling included), `nextBtn k`
the next-page control then (`none` = not found, `some e` = found with
`e` = enabled and without the disabled class, as `_is_disabled` checks),
and `total` the count `_get_total_from_pager` parsed (`or 0`). -/
structure Env where
  gridFound : Bool
  headerTexts : List String
  pages : Nat → List (List Cell)
  nextBtn : Nat → Option Bool
  total : Nat

/-- The mutable state of `run`: `all_rows`, `seen_products`, and the number
of Next clicks performed so far. -/
structure DriverState where
  all_rows : List Row
  seen : List String
  clicks : Nat

/-- `collect_current` of `run`: extract the currently rendered rows and
extend `all_rows` and `seen_products`. -/
def collect_current (itn : Nat → Option String) (env : Env)
    (st : DriverState) : DriverState :=
  { st with
    all_rows := st.all_rows ++ (extract_rows itn (env.pages st.clicks) st.seen).1,
    seen := (extract_rows itn (env.pages st.clicks) st.seen).2 }

/-- The safety cap of the pagination loop in `run`: `if safety > 100: break`. -/
def SAFETY_CAP : Nat := 100

/-- The `while next_btn and not _is_disabled(next_btn)` loop of `run`:
click Next while the control is found and enabled, collect after each
click, exit early when a parsed total is already covered by
`seen_products`.  The Python loop counts `safety` up from 0 and breaks
before clicking once `safety + 1 > 100`; here `rem` counts the clicks the
cap still admits, down from `SAFETY_CAP` (`rem = 100 - safety`), which is
the same loop. -/
def pagLoop (itn : Nat → Option String) (env : Env) :
    Nat → DriverState → DriverState
  | 0, st => st
  | rem + 1, st =>
    match env.nextBtn st.clicks with
    | some true =>
      let st1 := collect_current itn env { st with clicks := st.clicks + 1 }
      if env.total ≠ 0 ∧ env.total ≤ st1.seen.length then st1
      else pagLoop itn env rem st1
    | _ => st

/-- The collection part of `run`: initial collect, the pagination loop with
the full safety budget, then the final extra collect. -/
def driver (itn : Nat → Option String) (env : Env) : DriverState :=
  collect_current itn env
    (pagLoop itn env SAFETY_CAP (collect_current itn env ⟨[], [], 0⟩))

/-- Python `list(Row().to_dict().keys())`: the `DictWriter` field names. -/
def csvFieldnames : List String := (Row.to_dict {}).map Prod.fst

/-- One `writer.writerow(r.to_dict())`: the values in field-name order. -/
def csvRow (r : Row) : List String :=
  csvFieldnames.map (fun k => ((Row.to_dict r).lookup k).getD "")

/-- A file written at the end of `run`: the CSV (header plus data rows) or
the JSONL file (one object, as an ordered key-value list, per line). -/
inductive WriteEvent where
  | csvFile : List String → List (List String) → WriteEvent
  | jsonlFile : List (List (String × String)) → WriteEvent

/-- The header map of the run, as `index_to_name.get` used in the cell loop. -/
def headerFun (env : Env) : Nat → Option String :=
  fun i => (_get_headers env.headerTexts).lookup i

/-- `run` of `scripts/run_niap.py`: abort with the grid error when no grid
selector matches, abort with the header error when no header resolves,
otherwise collect across pagination and write the CSV and JSONL files;
returns `len(all_rows)`.  The second component is the list of file writes
performed, in order. -/
def run (env : Env) : Except String Nat × List WriteEvent :=
  if env.gridFound = false then
    (Except.error "Could not locate the products grid/table.", [])
  else if _get_headers env.headerTexts = [] then
    (Except.error "Could not read column headers; grid structure may have changed.", [])
  else
    (Except.ok (driver (headerFun env) env).all_rows.length,
      [WriteEvent.csvFile csvFieldnames ((driver (headerFun env) env).all_rows.map csvRow),
       WriteEvent.jsonlFile ((driver (headerFun env) env).all_rows.map Row.to_dict)])

/-- Whether a run result is the aborted (raised) case. -/
def isError (r : Except String Nat) : Bool :=
  match r with
  | Except.error _ => true
  | Except.ok _ => false

/-- `FIELD_ALIASES` of `cc_scraper/utils.py`. -/
def FIELD_ALIASES : List (String × List String) :=
  [("VID", ["VID", "Validation ID", "VPL ID", "Validation Identifier"]),
   ("Vendor", ["Vendor", "Manufacturer"]),
   ("Product", ["Product", "Product Name", "TOE"]),
   ("CCTL", ["CCTL", "CC Testing Lab", "Lab", "Testing Laboratory"]),
   ("Certification Date", ["Certification Date", "Check-in Date", "Validation Date", "Date"]),
   ("Status", ["Status", "State"]),
   ("Conformance Claims", ["Conformance Claims", "PP", "Protection Profile", "Conformance"]),
   ("Assurance Maintenance Date", ["Assurance Maintenance Date", "AMD", "Maintenance Date"]),
   ("Maintenance Update", ["Maintenance Update", "Maintenance", "Assurance Maintenance"]),
   ("Scheme", ["Scheme", "Country"])]

/-- `normalize_label` of `cc_scraper/utils.py`: the first canonical field one
of whose aliases equals the stripped label case-insensitively, else the
stripped label itself. -/
def normalize_label (label : String) : String :=
  let l := trimStr label
  match FIELD_ALIASES.find? (fun ca => ca.2.any (fun a => lowerStr a = lowerStr l)) with
  | some ca => ca.1
  | none => l

/-- `CANON_FIELDS` of `cc_scraper/niap_scraper.py`. -/
def CANON_FIELDS : List String := REQUIRED_HEADERS

/-- The `Record` dataclass of `cc_scraper/niap_scraper.py`; every field
defaults to `None`. -/
structure Record where
  VID : Option String := none
  Vendor : Option String := none
  Product : Option String := none
  CCTL : Option String := none
  Certification_Date : Option String := none
  Status : Option String := none
  Conformance_Claims : Option String := none
  Assurance_Maintenance_Date : Option String := none
  Maintenance_Update : Option String := none
  Scheme : Option String := none
  Product_URL : Option String := none

/-- `Record.to_dict` of `cc_scraper/niap_scraper.py`: snake_case keys; the
values stay `Option`al, and `None` serializes as JSON `null`. -/
def Record.to_dict (r : Record) : List (String × Option String) :=
  [("vid", r.VID), ("vendor", r.Vendor), ("product", r.Product), ("cctl", r.CCTL),
   ("certification_date", r.Certification_Date), ("status", r.Status),
   ("conformance_claims", r.Conformance_Claims),
   ("assurance_maintenance_date", r.Assurance_Maintenance_Date),
   ("maintenance_update", r.Maintenance_Update), ("scheme", r.Scheme),
   ("product_url", r.Product_URL)]

/-- The per-field lookup of `scrape_page` (`cc_scraper/niap_scraper.py`):
the canonical key itself, else the first alias present in the card's
field map. -/
def fieldValue (fields : List (String × String)) (f : String) : Option String :=
  match fields.lookup f with
  | some v => some v
  | none => ((FIELD_ALIASES.lookup f).getD []).findSome? (fun a => fields.lookup a)

/-- `if v: setattr(rec, key, v)` of `scrape_page`: a falsy (empty or
missing) value leaves the field at its `None` default. -/
def setIfTruthy (o : Option String) : Option String :=
  match o with
  | some v => if v = "" then none else some v
  | none => none

/-- The `Record` built for one card in `scrape_page`: each canonical field
from the card's field map when truthy, and the detail link's `href`
attribute (itself optional) when a link element is present. -/
def record_of_fields (fields : List (String × String))
    (url : Option (Option String)) : Record :=
  { VID := setIfTruthy (fieldValue fields "VID"),
    Vendor := setIfTruthy (fieldValue fields "Vendor"),
    Product := setIfTruthy (fieldValue fields "Product"),
    CCTL := setIfTruthy (fieldValue fields "CCTL"),
    Certification_Date := setIfTruthy (fieldValue fields "Certification Date"),
    Status := setIfTruthy (fieldValue fields "Status"),
    Conformance_Claims := setIfTruthy (fieldValue fields "Conformance Claims"),
    Assurance_Maintenance_Date := setIfTruthy (fieldValue fields "Assurance Maintenance Date"),
    Maintenance_Update := setIfTruthy (fieldValue fields "Maintenance Update"),
    Scheme := setIfTruthy (fieldValue fields "Scheme"),
    Product_URL := url.join }

/-! ### Helper lemmas about one extraction pass -/

theorem extractStep_seen_append (itn : Nat → Option String) (st : ExtractState)
    (cells : List Cell) : ∃ d, (extractStep itn st cells).seen = st.seen ++ d := by
  unfold extractStep
  split
  · exact ⟨[], (List.append_nil _).symm⟩
  · split
    · exact ⟨[], (List.append_nil _).symm⟩
    · exact ⟨[dedupKey (processCells itn cells).1 (processCells itn cells).2], rfl⟩

theorem foldl_extract_seen_append (itn : Nat → Option String) :
    ∀ (l : List (List Cell)) (st : ExtractState),
      ∃ d, (l.foldl (extractStep itn) st).seen = st.seen ++ d := by
  intro l
  induction l with
  | nil => intro st; exact ⟨[], (List.append_nil _).symm⟩
  | cons a l ih =>
    intro st
    obtain ⟨d1, h1⟩ := extractStep_seen_append itn st a
    obtain ⟨d2, h2⟩ := ih (extractStep itn st a)
    refine ⟨d1 ++ d2, ?_⟩
    rw [List.foldl_cons, h2, h1, List.append_assoc]

theorem mem_seen_foldl (itn : Nat → Option String) (l : List (List Cell))
    (st : ExtractState) (a : String) (h : a ∈ st.seen) :
    a ∈ (l.foldl (extractStep itn) st).seen := by
  obtain ⟨d, hd⟩ := foldl_extract_seen_append itn l st
  rw [hd]
  exact List.mem_append_left _ h

theorem extractStep_count (itn : Nat → Option String) (st : ExtractState)
    (cells : List Cell) :
    (extractStep itn st cells).batch.length + st.seen.length
      = st.batch.length + (extractStep itn st cells).seen.length := by
  unfold extractStep
  split
  · rfl
  · split
    · rfl
    · simp only [List.length_append, List.length_singleton]
      omega

theorem foldl_extract_count (itn : Nat → Option String) :
    ∀ (l : List (List Cell)) (st : ExtractState),
      (l.foldl (extractStep itn) st).batch.length + st.seen.length
        = st.batch.length + (l.foldl (extractStep itn) st).seen.length := by
  intro l
  induction l with
  | nil => intro st; rfl
  | cons a l ih =>
    intro st
    have h1 := extractStep_count itn st a
    have h2 := ih (extractStep itn st a)
    rw [List.foldl_cons]
    omega

theorem extractStep_nodup (itn : Nat → Option String) (st : ExtractState)
    (cells : List Cell) (h : st.seen.Nodup) : (extractStep itn st cells).seen.Nodup := by
  unfold extractStep
  split
  · exact h
  · split
    · exact h
    · next hmem =>
      refine List.nodup_append.2 ⟨h, List.nodup_singleton _, ?_⟩
      intro x hx hx2
      rw [List.mem_singleton.1 hx2] at hx
      exact hmem hx

theorem foldl_extract_nodup (itn : Nat → Option String) :
    ∀ (l : List (List Cell)) (st : ExtractState),
      st.seen.Nodup → (l.foldl (extractStep itn) st).seen.Nodup := by
  intro l
  induction l with
  | nil => intro st h; exact h
  | cons a l ih =>
    intro st h
    rw [List.foldl_cons]
    exact ih _ (extractStep_nodup itn st a h)

theorem key_mem_extractStep (itn : Nat → Option String) (st : ExtractState)
    (cells : List Cell) (hne : cells.isEmpty = false) :
    dedupKey (processCells itn cells).1 (processCells itn cells).2
      ∈ (extractStep itn st cells).seen := by
  unfold extractStep
  rw [hne]
  simp only [Bool.false_eq_true, if_false]
  split
  · next hmem => exact hmem
  · exact List.mem_append_right _ (List.mem_singleton.2 rfl)

theorem key_mem_foldl (itn : Nat → Option String) :
    ∀ (l : List (List Cell)) (st : ExtractState) (cells : List Cell),
      cells ∈ l → cells.isEmpty = false →
      dedupKey (processCells itn cells).1 (processCells itn cells).2
        ∈ (l.foldl (extractStep itn) st).seen := by
  intro l
  induction l with
  | nil => intro st cells h; cases h
  | cons a l ih =>
    intro st cells hmem hne
    rw [List.foldl_cons]
    rcases List.mem_cons.1 hmem with h | h
    · subst h
      exact mem_seen_foldl itn l _ _ (key_mem_extractStep itn st cells hne)
    · exact ih _ cells h hne

theorem foldl_extract_fixed (itn : Nat → Option String) :
    ∀ (l : List (List Cell)) (st : ExtractState),
      (∀ cells ∈ l, cells.isEmpty = false →
        dedupKey (processCells itn cells).1 (processCells itn cells).2 ∈ st.seen) →
      l.foldl (extractStep itn) st = st := by
  intro l
  induction l with
  | nil => intro st _; rfl
  | cons a l ih =>
    intro st h
    rw [List.foldl_cons]
    have hstep : extractStep itn st a = st := by
      unfold extractStep
      split
      · rfl
      · next hne =>
        split
        · rfl
        · next hmem =>
          exact absurd (h a (List.mem_cons_self a l) (by simpa using hne)) hmem
    rw [hstep]
    exact ih st (fun cells hc => h cells (List.mem_cons_of_mem _ hc))

theorem extract_rows_reseed (itn : Nat → Option String) (rows : List (List Cell))
    (seen : List String) :
    extract_rows itn rows (extract_rows itn rows seen).2
      = ([], (extract_rows itn rows seen).2) := by
  unfold extract_rows
  have h := foldl_extract_fixed itn rows
    ⟨[], (rows.foldl (extractStep itn) ⟨[], seen⟩).seen⟩
    (fun cells hc hne => key_mem_foldl itn rows ⟨[], seen⟩ cells hc hne)
  rw [h]

/-! ### Helper lemmas about `collect_current` and the pagination loop -/

theorem collect_clicks (itn : Nat → Option String) (env : Env) (st : DriverState) :
    (collect_current itn env st).clicks = st.clicks := rfl

theorem collect_seen_append (itn : Nat → Option String) (env : Env) (st : DriverState) :
    ∃ d, (collect_current itn env st).seen = st.seen ++ d :=
  foldl_extract_seen_append itn (env.pages st.clicks) ⟨[], st.seen⟩

theorem collect_seen_le (itn : Nat → Option String) (env : Env) (st : DriverState) :
    st.seen.length ≤ (collect_current itn env st).seen.length := by
  obtain ⟨d, hd⟩ := collect_seen_append itn env st
  rw [hd, List.length_append]
  omega

theorem collect_count (itn : Nat → Option String) (env : Env) (st : DriverState) :
    (collect_current itn env st).all_rows.length + st.seen.length
      = st.all_rows.length + (collect_current itn env st).seen.length := by
  have h := foldl_extract_count itn (env.pages st.clicks) ⟨[], st.seen⟩
  have hall : (collect_current itn env st).all_rows
      = st.all_rows ++ ((env.pages st.clicks).foldl (extractStep itn) ⟨[], st.seen⟩).batch := rfl
  have hseen : (collect_current itn env st).seen
      = ((env.pages st.clicks).foldl (extractStep itn) ⟨[], st.seen⟩).seen := rfl
  rw [hall, hseen, List.length_append]
  simp only [List.length_nil] at h
  omega

theorem collect_nodup (itn : Nat → Option String) (env : Env) (st : DriverState)
    (h : st.seen.Nodup) : (collect_current itn env st).seen.Nodup :=
  foldl_extract_nodup itn (env.pages st.clicks) ⟨[], st.seen⟩ h

theorem pagLoop_seen_append (itn : Nat → Option String) (env : Env) :
    ∀ (rem : Nat) (st : DriverState),
      ∃ d, (pagLoop itn env rem st).seen = st.seen ++ d := by
  intro rem
  induction rem with
  | zero => intro st; exact ⟨[], (List.append_nil _).symm⟩
  | succ rem ih =>
    intro st
    simp only [pagLoop]
    split
    · split
      · exact collect_seen_append itn env { st with clicks := st.clicks + 1 }
      · obtain ⟨d1, h1⟩ :=
          collect_seen_append itn env { st with clicks := st.clicks + 1 }
        obtain ⟨d2, h2⟩ :=
          ih (collect_current itn env { st with clicks := st.clicks + 1 })
        refine ⟨d1 ++ d2, ?_⟩
        rw [h2, h1]
        exact List.append_assoc _ _ _
    · exact ⟨[], (List.append_nil _).symm⟩

theorem pagLoop_count (itn : Nat → Option String) (env : Env) :
    ∀ (rem : Nat) (st : DriverState),
      st.all_rows.length = st.seen.length →
      (pagLoop itn env rem st).all_rows.length = (pagLoop itn env rem st).seen.length := by
  intro rem
  induction rem with
  | zero => intro st h; exact h
  | succ rem ih =>
    intro st h
    simp only [pagLoop]
    split
    · have hc := collect_count itn env { st with clicks := st.clicks + 1 }
      have h1 : (collect_current itn env { st with clicks := st.clicks + 1 }).all_rows.length
          = (collect_current itn env { st with clicks := st.clicks + 1 }).seen.length := by
        dsimp only at hc
        omega
      split
      · exact h1
      · exact ih _ h1
    · exact h

theorem pagLoop_nodup (itn : Nat → Option String) (env : Env) :
    ∀ (rem : Nat) (st : DriverState),
      st.seen.Nodup → (pagLoop itn env rem st).seen.Nodup := by
  intro rem
  induction rem with
  | zero => intro st h; exact h
  | succ rem ih =>
    intro st h
    simp only [pagLoop]
    split
    · have h1 := collect_nodup itn env { st with clicks := st.clicks + 1 } h
      split
      · exact h1
      · exact ih _ h1
    · exact h

theorem pagLoop_clicks_full (itn : Nat → Option String) (env : Env)
    (hbtn : ∀ k, env.nextBtn k = some true) (h0 : env.total = 0) :
    ∀ (rem : Nat) (st : DriverState),
      (pagLoop itn env rem st).clicks = st.clicks + rem := by
  intro rem
  induction rem with
  | zero => intro st; rfl
  | succ rem ih =>
    intro st
    simp only [pagLoop, hbtn st.clicks]
    rw [if_neg (by simp [h0])]
    rw [ih]
    rw [collect_clicks]
    dsimp only
    omega

/-! ### Helper lemmas about the cell loop (duplicate-header overwrite) -/

theorem cellStep_fst_of_eq (itn : Nat → Option String)
    (st : (String → String) × String) (p : Nat × Cell) (f : String)
    (h : itn p.1 = some f) : (cellStep itn st p).1 f = norm p.2.text := by
  simp [cellStep, h, updateVal]

theorem cellStep_fst_of_ne (itn : Nat → Option String)
    (st : (String → String) × String) (p : Nat × Cell) (f : String)
    (h : itn p.1 ≠ some f) : (cellStep itn st p).1 f = st.1 f := by
  simp only [cellStep]
  cases hk : itn p.1 with
  | none => rfl
  | some k =>
    have hfk : f ≠ k := by
      intro e
      rw [e] at h
      exact h hk
    simp only [updateVal, if_neg hfk]

theorem processCellsFrom_append (itn : Nat → Option String) :
    ∀ (l : List Cell) (c : Cell) (i : Nat) (st : (String → String) × String),
      processCellsFrom itn i (l ++ [c]) st
        = cellStep itn (processCellsFrom itn i l st) (i + l.length, c) := by
  intro l
  induction l with
  | nil =>
    intro c i st
    simp only [List.nil_append, processCellsFrom, List.length_nil, Nat.add_zero]
  | cons a l ih =>
    intro c i st
    simp only [List.cons_append, processCellsFrom, List.append_eq]
    rw [ih]
    have h2 : i + 1 + l.length = i + (a :: l).length := by
      simp only [List.length_cons]
      omega
    rw [h2]

theorem values_last_write (itn : Nat → Option String) (f : String) :
    ∀ (cells : List Cell) (j : Nat) (hj : j < cells.length), itn j = some f →
      (∀ k, j < k → k < cells.length → itn k ≠ some f) →
      (processCells itn cells).1 f = norm (cells.get ⟨j, hj⟩).text := by
  intro cells
  induction cells using List.reverseRecOn with
  | nil => intro j hj; exact absurd hj (by simp)
  | append_singleton l c ih =>
    intro j hj hfj hlast
    have hpc : processCells itn (l ++ [c])
        = cellStep itn (processCells itn l) (l.length, c) := by
      unfold processCells
      rw [processCellsFrom_append]
      simp only [Nat.zero_add]
    by_cases hjl : j = l.length
    · subst hjl
      rw [hpc, cellStep_fst_of_eq itn _ _ f hfj]
      have : (l ++ [c]).get ⟨l.length, hj⟩ = c := List.get_of_append rfl rfl
      rw [this]
    · have hjlt : j < l.length := by
        have := hj
        simp only [List.length_append, List.length_singleton] at this
        omega
      have hne : itn l.length ≠ some f :=
        hlast l.length hjlt (by simp)
      rw [hpc, cellStep_fst_of_ne itn _ _ f hne]
      have hget : (l ++ [c]).get ⟨j, hj⟩ = l.get ⟨j, hjlt⟩ := List.get_append j hjlt
      rw [hget]
      exact ih j hjlt hfj
        (fun k hk1 hk2 => hlast k hk1 (by simp only [List.length_append]; omega))

/-! ### Driver-level invariants -/

theorem driver_count (itn : Nat → Option String) (env : Env) :
    (driver itn env).all_rows.length = (driver itn env).seen.length := by
  have h1 : (collect_current itn env ⟨[], [], 0⟩).all_rows.length
      = (collect_current itn env ⟨[], [], 0⟩).seen.length := by
    have hc := collect_count itn env ⟨[], [], 0⟩
    dsimp only at hc
    simp only [List.length_nil] at hc
    omega
  have h2 := pagLoop_count itn env SAFETY_CAP _ h1
  have h3 := collect_count itn env
    (pagLoop itn env SAFETY_CAP (collect_current itn env ⟨[], [], 0⟩))
  unfold driver
  omega

theorem driver_nodup (itn : Nat → Option String) (env : Env) :
    (driver itn env).seen.Nodup :=
  collect_nodup itn env _
    (pagLoop_nodup itn env SAFETY_CAP _
      (collect_nodup itn env ⟨[], [], 0⟩ List.nodup_nil))

/-! ### The claims -/

/-- Claim C1, as stated, is false of `scripts/run_niap.py`: its `ALIASES`
table has no entry for `"product name"` or `"country"`, so on the headers
`["VID","Vendor","Product Name","CCTL","Country"]` the resolver does not
produce the five-entry map `{0:VID, 1:Vendor, 2:Product, 3:CCTL, 4:Scheme}`. -/
theorem c1_counterexample :
    ¬ (_get_headers ["VID", "Vendor", "Product Name", "CCTL", "Country"]
      = [(0, "VID"), (1, "Vendor"), (2, "Product"), (3, "CCTL"), (4, "Scheme")]) := by
  decide

/-- Claim C1 amended: on `["VID","Vendor","Product Name","CCTL","Country"]`
the resolver of `scripts/run_niap.py` yields `{0:VID, 1:Vendor, 3:CCTL}`,
dropping `"Product Name"` and `"Country"` (`to_canonical` returns `none`
for both); matching is case-insensitive and exact (not substring) on the
whitespace-normalized text.  The aliases the claim expected live in
`cc_scraper/utils.py`, whose `normalize_label` does map `"Product Name"`
to `Product` and `"Country"` to `Scheme`. -/
theorem c1_header_resolution_amended :
    _get_headers ["VID", "Vendor", "Product Name", "CCTL", "Country"]
      = [(0, "VID"), (1, "Vendor"), (3, "CCTL")] ∧
    to_canonical "Product Name" = none ∧
    to_canonical "Country" = none ∧
    to_canonical "ViD" = some "VID" ∧
    to_canonical "  pRoDuCt   " = some "Product" ∧
    to_canonical "Scheme x" = none ∧
    normalize_label "Product Name" = "Product" ∧
    normalize_label "Country" = "Scheme" := by
  decide

/-- Claim C5: if the grid cannot be located or the header row resolves to
zero canonical fields, `run` aborts with an error and performs no file
write at all (neither the CSV nor the JSONL event is emitted). -/
theorem c5_fatal_aborts_before_output (env : Env)
    (h : env.gridFound = false ∨ _get_headers env.headerTexts = []) :
    (run env).2 = [] ∧ isError (run env).1 = true := by
  rcases h with h | h
  · simp [run, h, isError]
  · by_cases hg : env.gridFound = false
    · simp [run, hg, isError]
    · simp [run, hg, h, isError]

theorem c5_witness :
    (run { gridFound := false, headerTexts := [], pages := fun _ => [],
           nextBtn := fun _ => none, total := 0 }).2 = [] ∧
    isError (run { gridFound := false, headerTexts := [], pages := fun _ => [],
                   nextBtn := fun _ => none, total := 0 }).1 = true :=
  c5_fatal_aborts_before_output _ (Or.inl rfl)

/-- Claim C6, as stated, is false of `cc_scraper/niap_scraper.py`: a card
yielding no recognized fields produces a `Record` whose fields stay `None`,
and `to_dict` passes the `None` through, so the JSONL line carries
`"vid": null` rather than an empty string. -/
theorem c6_counterexample :
    (Record.to_dict (record_of_fields [] none)).lookup "vid" = some none := by
  decide

/-- Claim C6 amended: for the grid scraper `scripts/run_niap.py` every
output record is total — `Row.to_dict` always carries exactly the eleven
output keys, with `""` (a string, never a null or an omitted key) for
absent fields; the card scraper `cc_scraper/niap_scraper.py`, by contrast,
leaves every absent field of a `Record` at `none`, which serializes as
JSON `null`. -/
theorem c6_output_values_strings :
    (∀ r : Row, (Row.to_dict r).map Prod.fst = csvFieldnames) ∧
    ((Row.to_dict (rowOf (fun _ => "") "")).all (fun p => p.2 == "") = true) ∧
    ((Record.to_dict (record_of_fields [] none)).all (fun p => p.2 == none) = true) :=
  ⟨fun _ => rfl, by decide, by decide⟩

theorem c6_witness :
    (Row.to_dict (rowOf (fun _ => "") "/p/9")).map Prod.fst = csvFieldnames :=
  c6_output_values_strings.1 _

/-- Claim C9: the CSV rows and the JSONL objects are generated from the
same per-record dictionary — pairing the CSV field names with each CSV
data row gives exactly the record's `to_dict` key-value list, one line per
record in the same order, for any accumulated record list. -/
theorem c9_output_consistency (records : List Row) :
    records.map (fun r => csvFieldnames.zip (csvRow r)) = records.map Row.to_dict :=
  congrArg (fun f => records.map f) (funext (fun _ => rfl))

theorem c9_witness :
    [rowOf (fun _ => "") ""].map (fun r => csvFieldnames.zip (csvRow r))
      = [rowOf (fun _ => "") ""].map Row.to_dict :=
  c9_output_consistency _

/-- Claim C3: the dedup key follows the three-level chain — (a) the
normalized lowercase `Product` text when non-empty, (b) else the lowercase
`ProductURL` behind the `"url::"` marker, (c) else the `"row::"`-marked
lowercase join of all canonical fields in `REQUIRED_HEADERS` order; a row
whose key is already seen leaves the state untouched (discarded, no
error), otherwise the key is inserted and the record appended.
Consequently two rows with empty `Product` but URLs `"/p/1"` and `"/p/2"`
are both kept, and two rows with empty `Product`, empty URL and identical
remaining fields collapse to one record. -/
theorem c3_dedup_key_chain :
    (∀ (values : String → String) (url : String),
      trimStr (lowerStr (values "Product")) ≠ "" →
      dedupKey values url = trimStr (lowerStr (values "Product"))) ∧
    (∀ (values : String → String) (url : String),
      trimStr (lowerStr (values "Product")) = "" → url ≠ "" →
      dedupKey values url = "url::" ++ lowerStr (trimStr url)) ∧
    (∀ values : String → String,
      trimStr (lowerStr (values "Product")) = "" →
      dedupKey values ""
        = "row::" ++ lowerStr (norm (joinSep " | " (REQUIRED_HEADERS.map values)))) ∧
    (∀ (itn : Nat → Option String) (st : ExtractState) (cells : List Cell),
      cells.isEmpty = false →
      dedupKey (processCells itn cells).1 (processCells itn cells).2 ∈ st.seen →
      extractStep itn st cells = st) ∧
    (∀ (itn : Nat → Option String) (st : ExtractState) (cells : List Cell),
      cells.isEmpty = false →
      dedupKey (processCells itn cells).1 (processCells itn cells).2 ∉ st.seen →
      extractStep itn st cells
        = ⟨st.batch ++ [rowOf (processCells itn cells).1 (processCells itn cells).2],
           st.seen ++ [dedupKey (processCells itn cells).1 (processCells itn cells).2]⟩) ∧
    (extract_rows (fun k => (_get_headers ["Product", "Vendor"]).lookup k)
      [[⟨"", some (some "/p/1")⟩, ⟨"V", none⟩],
       [⟨"", some (some "/p/2")⟩, ⟨"V", none⟩]] []).1.length = 2 ∧
    (extract_rows (fun k => (_get_headers ["Product", "Vendor"]).lookup k)
      [[⟨"", none⟩, ⟨"V", none⟩],
       [⟨"", none⟩, ⟨"V", none⟩]] []).1.length = 1 := by
  refine ⟨?_, ?_, ?_, ?_, ?_, by decide, by decide⟩
  · intro values url h
    simp only [dedupKey]
    rw [if_neg h]
  · intro values url h hu
    simp only [dedupKey]
    rw [if_pos h, if_neg hu]
  · intro values h
    simp only [dedupKey]
    rw [if_pos h]
    simp
  · intro itn st cells hne hmem
    unfold extractStep
    rw [hne]
    simp only [Bool.false_eq_true, if_false]
    rw [if_pos hmem]
  · intro itn st cells hne hmem
    unfold extractStep
    rw [hne]
    simp only [Bool.false_eq_true, if_false]
    rw [if_neg hmem]

theorem c3_witness :
    dedupKey (fun k => if k = "Product" then "Widget" else "") "" = "widget" ∧
    dedupKey (fun _ => "") "/p/1" = "url::/p/1" :=
  ⟨(c3_dedup_key_chain.1 (fun k => if k = "Product" then "Widget" else "") ""
      (by decide)).trans (by decide),
   (c3_dedup_key_chain.2.1 (fun _ => "") "/p/1" (by decide) (by decide)).trans (by decide)⟩

/-- Claim C7: when two column positions `i < j` both resolve to the same
canonical field `f` and `j` is the right-most such column, the value the
cell loop stores for `f` is the one read from column `j` — cells are
processed in increasing column order and later writes overwrite earlier
ones. -/
theorem c7_duplicate_header_last_write (itn : Nat → Option String)
    (cells : List Cell) (f : String) (i j : Nat) (hij : i < j)
    (hfi : itn i = some f) (hj : j < cells.length) (hfj : itn j = some f)
    (hlast : ∀ k, j < k → k < cells.length → itn k ≠ some f) :
    (processCells itn cells).1 f = norm (cells.get ⟨j, hj⟩).text :=
  values_last_write itn f cells j hj hfj hlast

theorem c7_witness :
    (processCells (fun k => (_get_headers ["Scheme", "Scheme"]).lookup k)
      [⟨"A", none⟩, ⟨"B", none⟩]).1 "Scheme" = "B" :=
  (c7_duplicate_header_last_write (fun k => (_get_headers ["Scheme", "Scheme"]).lookup k)
    [⟨"A", none⟩, ⟨"B", none⟩] "Scheme" 0 1 (by decide) (by decide) (by decide) (by decide)
    (by intro k h1 h2; simp only [List.length_cons, List.length_nil] at h2; omega)).trans (by decide)

/-- Claim C8: collection is idempotent — running the extraction pass a
second time over the identical rendered row set, starting from the state
the first pass produced, changes nothing: no record is appended and no key
is added. -/
theorem c8_collect_idempotent (itn : Nat → Option String) (env : Env)
    (st : DriverState) :
    collect_current itn env (collect_current itn env st) = collect_current itn env st := by
  have h := extract_rows_reseed itn (env.pages st.clicks) st.seen
  unfold collect_current
  dsimp only
  rw [h]
  simp

theorem c8_witness :
    collect_current (fun k => (_get_headers ["Product"]).lookup k)
      { gridFound := true, headerTexts := ["Product"],
        pages := fun _ => [[⟨"Widget", none⟩]],
        nextBtn := fun _ => none, total := 0 }
      (collect_current (fun k => (_get_headers ["Product"]).lookup k)
        { gridFound := true, headerTexts := ["Product"],
          pages := fun _ => [[⟨"Widget", none⟩]],
          nextBtn := fun _ => none, total := 0 } ⟨[], [], 0⟩)
      = collect_current (fun k => (_get_headers ["Product"]).lookup k)
        { gridFound := true, headerTexts := ["Product"],
          pages := fun _ => [[⟨"Widget", none⟩]],
          nextBtn := fun _ => none, total := 0 } ⟨[], [], 0⟩ :=
  c8_collect_idempotent _ _ _

/-- Claim C2, as stated, is false of the code: the total-count check sits
after the `next_btn.click()` at the bottom of the loop body, so when the
very first (pre-loop) collection already yields all `N = 1` unique keys
and the next-control is enabled, the driver still performs one Next click
rather than zero. -/
theorem c2_counterexample :
    ¬ ((driver (fun k => (_get_headers ["Product"]).lookup k)
        { gridFound := true, headerTexts := ["Product"],
          pages := fun _ => [[⟨"Widget", none⟩]],
          nextBtn := fun _ => some true, total := 1 }).clicks = 0) := by
  decide

/-- Unfolding the pagination loop once when the next-control is enabled. -/
theorem pagLoop_succ_true (itn : Nat → Option String) (env : Env) (rem : Nat)
    (st : DriverState) (hb : env.nextBtn st.clicks = some true) :
    pagLoop itn env (rem + 1) st
      = if env.total ≠ 0 ∧
           env.total ≤ (collect_current itn env { st with clicks := st.clicks + 1 }).seen.length
        then collect_current itn env { st with clicks := st.clicks + 1 }
        else pagLoop itn env rem (collect_current itn env { st with clicks := st.clicks + 1 }) := by
  simp only [pagLoop, hb]

/-- Claim C2 amended: the parsed-total check only runs at the end of a loop
iteration, after a click; so when the initial collection pass already
covers the parsed total `N ≠ 0` and the next-control is enabled, the
driver performs exactly one further Next click and then stops — not zero,
and no more than one. -/
theorem c2_total_early_exit (itn : Nat → Option String) (env : Env)
    (hbtn : env.nextBtn 0 = some true) (ht : env.total ≠ 0)
    (hreach : env.total ≤ (collect_current itn env ⟨[], [], 0⟩).seen.length) :
    (driver itn env).clicks = 1 := by
  unfold driver
  rw [collect_clicks]
  have hcap : SAFETY_CAP = 99 + 1 := rfl
  have hb : env.nextBtn (collect_current itn env ⟨[], [], 0⟩).clicks = some true := hbtn
  rw [hcap, pagLoop_succ_true itn env 99 _ hb]
  rw [if_pos]
  · rw [collect_clicks]
    dsimp only
    rw [collect_clicks]
  · refine ⟨ht, ?_⟩
    obtain ⟨d, hd⟩ := collect_seen_append itn env
      { collect_current itn env ⟨[], [], 0⟩ with
        clicks := (collect_current itn env ⟨[], [], 0⟩).clicks + 1 }
    rw [hd, List.length_append]
    exact le_trans hreach (Nat.le_add_right _ _)

theorem c2_witness :
    (driver (fun k => (_get_headers ["Product"]).lookup k)
      { gridFound := true, headerTexts := ["Product"],
        pages := fun _ => [[⟨"Widget", none⟩]],
        nextBtn := fun _ => some true, total := 1 }).clicks = 1 :=
  c2_total_early_exit _ _ rfl (by decide) (by decide)

/-- Claim C4: when the next-control is always found and enabled and no
parsed total triggers the early exit, the driver performs exactly the
safety cap of 100 Next clicks — not fewer, not more — and terminates. -/
theorem c4_safety_cap (itn : Nat → Option String) (env : Env)
    (hbtn : ∀ k, env.nextBtn k = some true) (h0 : env.total = 0) :
    (driver itn env).clicks = 100 := by
  unfold driver
  rw [collect_clicks, pagLoop_clicks_full itn env hbtn h0, collect_clicks]
  rfl

theorem c4_witness :
    (driver (fun _ => none)
      { gridFound := true, headerTexts := [], pages := fun _ => [],
        nextBtn := fun _ => some true, total := 0 }).clicks = 100 :=
  c4_safety_cap _ _ (fun _ => rfl) rfl

/-- Claim C10: the dedup set only grows — each collection pass and each
pagination-loop run extends `seen_products` on the right; collection
preserves the invariant that the accumulated record count equals the
number of seen keys; at the end of the run the record count equals the
number of keys, those keys are pairwise distinct, and the count `run`
returns is exactly that number. -/
theorem c10_dedup_invariants (itn : Nat → Option String) (env : Env) :
    (∀ st : DriverState, ∃ d, (collect_current itn env st).seen = st.seen ++ d) ∧
    (∀ (rem : Nat) (st : DriverState),
      ∃ d, (pagLoop itn env rem st).seen = st.seen ++ d) ∧
    (∀ st : DriverState, st.all_rows.length = st.seen.length →
      (collect_current itn env st).all_rows.length
        = (collect_current itn env st).seen.length) ∧
    (driver itn env).all_rows.length = (driver itn env).seen.length ∧
    (driver itn env).seen.Nodup ∧
    (env.gridFound = true → _get_headers env.headerTexts ≠ [] →
      (run env).1 = Except.ok ((driver (headerFun env) env).seen.length)) := by
  refine ⟨collect_seen_append itn env, pagLoop_seen_append itn env, ?_,
    driver_count itn env, driver_nodup itn env, ?_⟩
  · intro st h
    have hc := collect_count itn env st
    omega
  · intro hg hh
    simp only [run, hg, Bool.true_eq_false, if_false, if_neg hh]
    exact congrArg Except.ok (driver_count (headerFun env) env)

theorem c10_witness :
    (run { gridFound := true, headerTexts := ["Product"],
           pages := fun _ => [[⟨"Widget", none⟩]],
           nextBtn := fun _ => none, total := 0 }).1
      = Except.ok ((driver
          (headerFun { gridFound := true, headerTexts := ["Product"],
                       pages := fun _ => [[⟨"Widget", none⟩]],
                       nextBtn := fun _ => none, total := 0 })
          { gridFound := true, headerTexts := ["Product"],
            pages := fun _ => [[⟨"Widget", none⟩]],
            nextBtn := fun _ => none, total := 0 }).seen.length) :=
  (c10_dedup_invariants
    (headerFun { gridFound := true, headerTexts := ["Product"],
                 pages := fun _ => [[⟨"Widget", none⟩]],
                 nextBtn := fun _ => none, total := 0 })
    { gridFound := true, headerTexts := ["Product"],
      pages := fun _ => [[⟨"Widget", none⟩]],
      nextBtn := fun _ => none, total := 0 }).2.2.2.2.2 rfl (by decide)

end NIAP
